import Mathlib

/-!
Verification development for `cslibs_utility` (header-only C++ utilities).

Embedded components:
* `cslibs_utility::logger::CSVWriter` (csv_writer.hpp): field rendering
  (`toString` / `buildString`), and the producer/worker behaviour of the
  writer as an executable labelled transition system.
* `cslibs_utility::buffered::buffered_vector` (buffered_vector.hpp): a
  fixed-capacity vector with manual size tracking, as pure functions.

Modelling conventions:
* C++ `std::string` values are Lean `String`s.
* A finite `double` is represented by its exact rational value (`ℚ`);
  `std::to_string(double)` is `printf %f`: the value rounded to six decimal
  places (round half to even), with a fixed six-digit fraction part.
* Fallible C++ operations (`throw std::runtime_error`) return `Except String`.
* Reads through the raw buffer pointer `data_ptr_[i]` are modelled with
  `List.getElem?`; `none` stands for an access outside the allocation,
  which is undefined behaviour in the C++.
-/

/- ### CsvField rendering (csv_writer.hpp, `toString` and `CSVWriter::buildString`) -/

/-- One field value passed to `CSVWriter::write`.  The writer is a variadic
template; the types that occur in practice are integers, doubles and
`std::string`.  A double is carried as its exact rational value. -/
inductive CsvField where
  | fInt (i : ℤ)
  | fDouble (q : ℚ)
  | fString (s : String)
deriving DecidableEq

/-- Round `a / b` to the nearest integer, ties to even (the rounding used by
`printf`-family formatting of an exactly represented value). -/
def rneDiv (a b : ℕ) : ℕ :=
  let qt := a / b
  let r := a % b
  if 2 * r < b then qt
  else if b < 2 * r then qt + 1
  else if qt % 2 = 0 then qt else qt + 1

/-- Left-pad a string with zeros to width `w`. -/
def padZeros (w : ℕ) (s : String) : String :=
  String.mk (List.replicate (w - s.length) '0') ++ s

/-- Rendering of a finite `double` by `std::to_string`: `%f` formatting,
i.e. the exact value rounded to six decimal places, sign first, with the
fraction part always six digits. -/
def doubleToString (q : ℚ) : String :=
  let n := rneDiv (q.num.natAbs * 1000000) q.den
  let sgn := if q.num < 0 then "-" else ""
  sgn ++ toString (n / 1000000) ++ "." ++ padZeros 6 (toString (n % 1000000))

/-- The `toString` template of csv_writer.hpp: `std::to_string` for numeric
types, and the specialisation for `std::string` returns the string verbatim. -/
def cppToString : CsvField → String
  | .fInt i => toString i
  | .fDouble q => doubleToString q
  | .fString s => s

/-- `CSVWriter::buildString`: the two C++ overloads.  The single-argument
overload renders the last field; the variadic overload renders the head and
appends `","` and the rendering of the rest.  (The C++ has no zero-argument
overload, so the `[]` case is unreachable from `write`.) -/
def buildString : List CsvField → String
  | [] => ""
  | [t] => cppToString t
  | t :: ts => cppToString t ++ "," ++ buildString ts

/-- The header-writing loop of `CSVWriter::loop`: all names but the last are
followed by `","`, the last is written bare (the C++ loop needs `size ≥ 1`;
the `[]` case is unreachable for an instantiated writer). -/
def renderHeader : List String → String
  | [] => ""
  | [x] => x
  | x :: xs => x ++ "," ++ renderHeader xs

/-- An apostrophe character, used in the open-failure diagnostic text. -/
def squote : String := String.singleton (Char.ofNat 39)

/-- The diagnostic written to `std::cerr` when `out_.open(path_)` fails in
`CSVWriter::loop`. -/
def openFailMsg (path : String) : String :=
  "[CSVWriter]: Could not open path " ++ squote ++ path ++ squote ++ "!\n"

/- ### buffered_vector (buffered_vector.hpp) -/

/-- The state of a `cslibs_utility::buffered::buffered_vector<T>`: the manual
size counter `size_` and the backing `std::vector` `data_` (whose length is
the capacity).  `data_ptr_` always points at `data_.data()`, so it is not a
separate state component. -/
structure buffered_vector (T : Type) where
  size_ : ℕ
  data_ : List T
deriving DecidableEq

namespace buffered_vector

/-- `buffered_vector::capacity()`: `data_.size()`. -/
def capacity {T : Type} (v : buffered_vector T) : ℕ := v.data_.length

/-- `buffered_vector::size()`: the manual counter `size_`. -/
def size {T : Type} (v : buffered_vector T) : ℕ := v.size_

/-- A read through the raw pointer, `data_ptr_[i]`.  For `i` inside the
allocation (`i < capacity`) this is the stored element; outside it is
undefined behaviour in the C++, modelled as `none`. -/
def rawRead {T : Type} (v : buffered_vector T) (i : ℕ) : Option T := v.data_[i]?

/-- `buffered_vector::at(i)`: throws `"Index out of bounds!"` when
`i >= size_`, otherwise returns `data_ptr_[i]`. -/
def at_ {T : Type} (v : buffered_vector T) (i : ℕ) : Except String (Option T) :=
  if v.size_ ≤ i then .error "Index out of bounds!" else .ok (rawRead v i)

/-- `buffered_vector::operator[](i)`: returns `data_ptr_[i]` with no check of
any kind. -/
def subscript {T : Type} (v : buffered_vector T) (i : ℕ) : Option T := rawRead v i

/-- `std::vector::resize(n, d)`: truncate to `n` elements or pad with `d`. -/
def stdResize {T : Type} (l : List T) (n : ℕ) (d : T) : List T :=
  if n ≤ l.length then l.take n else l ++ List.replicate (n - l.length) d

/-- `buffered_vector::push_back(value)`: throws
`"Buffered vector reached the capacity limit!"` when `size_ == data_.size()`,
otherwise writes `data_ptr_[size_] = value` and increments `size_`. -/
def push_back {T : Type} (v : buffered_vector T) (x : T) :
    Except String (buffered_vector T) :=
  if v.size_ = v.data_.length then
    .error "Buffered vector reached the capacity limit!"
  else
    .ok { size_ := v.size_ + 1, data_ := v.data_.set v.size_ x }

/-- `buffered_vector::emplace_back(value)`: same body as `push_back`. -/
def emplace_back {T : Type} (v : buffered_vector T) (x : T) :
    Except String (buffered_vector T) :=
  if v.size_ = v.data_.length then
    .error "Buffered vector reached the capacity limit!"
  else
    .ok { size_ := v.size_ + 1, data_ := v.data_.set v.size_ x }

/-- The single-argument `buffered_vector::resize(size, default_value)`:
sets `size_ = 0` and resizes the backing vector to `size`. -/
def resize1 {T : Type} (v : buffered_vector T) (n : ℕ) (d : T) :
    buffered_vector T :=
  { size_ := 0, data_ := stdResize v.data_ n d }

/-- The two-argument `buffered_vector::resize(size, capacity, default_value)`:
sets `size_ = size` and resizes the backing vector to `capacity`, with no
check that `size <= capacity` (unlike the constructors, which `assert` it). -/
def resize2 {T : Type} (v : buffered_vector T) (n c : ℕ) (d : T) :
    buffered_vector T :=
  { size_ := n, data_ := stdResize v.data_ c d }

/-- `buffered_vector::clear()`: sets `size_ = 0` and nothing else. -/
def clear {T : Type} (v : buffered_vector T) : buffered_vector T :=
  { v with size_ := 0 }

end buffered_vector

/- ### CSVWriter as a labelled transition system (csv_writer.hpp) -/

/-- Program counter of the worker thread, following the control flow of
`CSVWriter::loop`:
* `start`      — before `out_.open(path_)`;
* `failed`     — the open failed: the diagnostic was printed and the worker
                 returned (thread finished);
* `header`     — the file is open, the header (if configured) is about to be
                 written;
* `loopCheck`  — at the `while (!stop_)` test;
* `aboutToWait`— the test read `stop_ == false`, `notify_log_.wait` has not
                 been entered yet (a notification arriving here is lost,
                 because `write`/`~CSVWriter` notify without holding
                 `notify_mutex_`);
* `waiting`    — blocked inside `notify_log_.wait`;
* `drain`      — running the `dumpQ` lambda inside the loop;
* `finalDrain` — running the `dumpQ` call after the loop;
* `closing`    — about to `flush` and `close`;
* `done`       — `loop` returned normally (thread finished). -/
inductive WorkerPC where
  | start
  | failed
  | header
  | loopCheck
  | aboutToWait
  | waiting
  | drain
  | finalDrain
  | closing
  | done
deriving DecidableEq

/-- The destination file as seen through `out_`: never opened (or open
failed), open with the chunks written so far, or closed with its final
chunks.  `out_.open(path_)` uses the default `std::ofstream` mode, which
truncates, so opening starts from the empty chunk list whatever was on
disk before. -/
inductive FileSt where
  | noFile
  | opened (chunks : List String)
  | closed (chunks : List String)
deriving DecidableEq

/-- Construction-time configuration of one `CSVWriter` instance: whether the
header constructor was used (`has_header_`), the field names (`header_`),
and the destination path (`path_`). -/
structure Config where
  hasHeader : Bool
  header : List String
  path : String
deriving DecidableEq

/-- The shared state of one `CSVWriter` instance.  `q`, `stop` and the file
are the C++ members `q_`, `stop_` and `out_`.  The remaining fields are
ghost history variables used only to state properties: `pushed` records
every line ever pushed by `write` (in push order), `pushedBeforeStop` the
sublist of those pushed while `stop_` was still `false`, `written` the data
lines written to the file (in write order), and `errLog` what was printed
to `std::cerr`. -/
structure LoggerState where
  wpc : WorkerPC
  q : List String
  stop : Bool
  file : FileSt
  headerDone : Bool
  pushed : List String
  pushedBeforeStop : List String
  written : List String
  errLog : List String
deriving DecidableEq

/-- The state right after a constructor returned: worker spawned at the top
of `loop`, queue empty, `stop_ = false`, file not yet opened. -/
def initState : LoggerState :=
  { wpc := .start, q := [], stop := false, file := .noFile, headerDone := false,
    pushed := [], pushedBeforeStop := [], written := [], errLog := [] }

/-- Transition labels.  `write fs` and `reqStop` are the producer-side and
destructor-side calls; the `w…` labels are the worker's own steps.
`wOpenOk` / `wOpenFail` are the two outcomes of `out_.open(path_)` (chosen
by the environment). -/
inductive Label where
  | write (fs : List CsvField)
  | reqStop
  | wOpenOk
  | wOpenFail
  | wHeader
  | wCheckTrue
  | wCheckFalse
  | wEnterWait
  | wPop
  | wDrainEmpty
  | wFinalPop
  | wFinalEmpty
  | wClose
deriving DecidableEq

/-- Effect of `notify_log_.notify_one()`: it releases the worker only if the
worker is currently blocked in `wait` (it then resumes and runs `dumpQ`);
a notification sent at any other moment is lost, since no predicate is
re-checked and condition variables do not buffer notifications. -/
def wakeIfWaiting : WorkerPC → WorkerPC
  | .waiting => .drain
  | p => p

/-- One atomic step of the system.  `none` means the label is not enabled in
this state.  `write` bundles the lock-protected push with the immediately
following `notify_one` into one atomic step, and `reqStop` likewise bundles
`stop_ = true` with its `notify_one`; every outcome of the finer C++
interleaving is still reachable by reordering whole steps. -/
def stepL (c : Config) (l : Label) (s : LoggerState) : Option LoggerState :=
  match l with
  | .write fs =>
      let line := buildString fs
      some { s with
        q := s.q ++ [line],
        pushed := s.pushed ++ [line],
        pushedBeforeStop :=
          if s.stop then s.pushedBeforeStop else s.pushedBeforeStop ++ [line],
        wpc := wakeIfWaiting s.wpc }
  | .reqStop =>
      some { s with stop := true, wpc := wakeIfWaiting s.wpc }
  | .wOpenOk =>
      match s.wpc with
      | .start => some { s with wpc := .header, file := .opened [] }
      | _ => none
  | .wOpenFail =>
      match s.wpc with
      | .start => some { s with wpc := .failed,
                                errLog := s.errLog ++ [openFailMsg c.path] }
      | _ => none
  | .wHeader =>
      match s.wpc, s.file with
      | .header, .opened ch =>
          some { s with wpc := .loopCheck, headerDone := true,
                        file := .opened (ch ++
                          if c.hasHeader then [renderHeader c.header ++ "\n"]
                          else []) }
      | _, _ => none
  | .wCheckTrue =>
      match s.wpc with
      | .loopCheck => if s.stop then some { s with wpc := .finalDrain } else none
      | _ => none
  | .wCheckFalse =>
      match s.wpc with
      | .loopCheck => if s.stop then none else some { s with wpc := .aboutToWait }
      | _ => none
  | .wEnterWait =>
      match s.wpc with
      | .aboutToWait => some { s with wpc := .waiting }
      | _ => none
  | .wPop =>
      match s.wpc, s.q, s.file with
      | .drain, f :: rest, .opened ch =>
          some { s with q := rest, written := s.written ++ [f],
                        file := .opened (ch ++ [f ++ "\n"]) }
      | _, _, _ => none
  | .wDrainEmpty =>
      match s.wpc, s.q with
      | .drain, [] => some { s with wpc := .loopCheck }
      | _, _ => none
  | .wFinalPop =>
      match s.wpc, s.q, s.file with
      | .finalDrain, f :: rest, .opened ch =>
          some { s with q := rest, written := s.written ++ [f],
                        file := .opened (ch ++ [f ++ "\n"]) }
      | _, _, _ => none
  | .wFinalEmpty =>
      match s.wpc, s.q with
      | .finalDrain, [] => some { s with wpc := .closing }
      | _, _ => none
  | .wClose =>
      match s.wpc, s.file with
      | .closing, .opened ch => some { s with wpc := .done, file := .closed ch }
      | _, _ => none

/-- Run a whole schedule of steps; `none` if some label was not enabled. -/
def run (c : Config) : List Label → LoggerState → Option LoggerState
  | [], s => some s
  | l :: ls, s =>
      match stepL c l s with
      | some s' => run c ls s'
      | none => none

/-- The chunks written to the destination file, if it was ever opened. -/
def fileChunks (s : LoggerState) : Option (List String) :=
  match s.file with
  | .noFile => none
  | .opened ch => some ch
  | .closed ch => some ch

/-- The raw text content of the destination file, if it was ever opened. -/
def fileContent (s : LoggerState) : Option String :=
  (fileChunks s).map String.join

/-- The chunk list contributed by the header phase: one comma-joined,
newline-terminated line when a header is configured and the header step has
run, nothing otherwise. -/
def hdrChunksOf (c : Config) (s : LoggerState) : List String :=
  if s.headerDone ∧ c.hasHeader then [renderHeader c.header ++ "\n"] else []

/- ### Concrete instances used by witnesses and counterexamples -/

/-- The configuration of the spec's §8 scenario: header `["t","x","y"]`. -/
def cfg3 : Config := { hasHeader := true, header := ["t", "x", "y"], path := "out.csv" }

/-- The same configuration without a header (second C++ constructor). -/
def cfgNoHdr : Config := { hasHeader := false, header := ["", "", ""], path := "out.csv" }

/-- The first row of the scenario, `write(1, 2.0, "a")`, at the instantiation
`CSVWriter<int, double, std::string>` forced by the literal `2.0`. -/
def row1 : List CsvField := [.fInt 1, .fDouble 2, .fString "a"]

/-- The second row of the scenario, `write(2, 3.0, "b")`. -/
def row2 : List CsvField := [.fInt 2, .fDouble 3, .fString "b"]

/-- A complete schedule for the §8 scenario: open, header, two writes, then
destruction (stop request, final drain of both lines, flush and close). -/
def demoTrace : List Label :=
  [.wOpenOk, .wHeader, .write row1, .write row2, .reqStop,
   .wCheckTrue, .wFinalPop, .wFinalPop, .wFinalEmpty, .wClose]

/-- The state `demoTrace` ends in. -/
def demoEnd : LoggerState :=
  { wpc := .done, q := [], stop := true,
    file := .closed ["t,x,y\n", "1,2.000000,a\n", "2,3.000000,b\n"],
    headerDone := true,
    pushed := ["1,2.000000,a", "2,3.000000,b"],
    pushedBeforeStop := ["1,2.000000,a", "2,3.000000,b"],
    written := ["1,2.000000,a", "2,3.000000,b"],
    errLog := [] }

/-- A complete schedule for a no-header writer with a single row. -/
def noHdrTrace : List Label :=
  [.wOpenOk, .wHeader, .write row1, .reqStop,
   .wCheckTrue, .wFinalPop, .wFinalEmpty, .wClose]

/-- The state `noHdrTrace` ends in. -/
def noHdrEnd : LoggerState :=
  { wpc := .done, q := [], stop := true, file := .closed ["1,2.000000,a\n"],
    headerDone := true, pushed := ["1,2.000000,a"],
    pushedBeforeStop := ["1,2.000000,a"], written := ["1,2.000000,a"],
    errLog := [] }

/-- A schedule whose notification is lost: the producer's `write` (push and
`notify_one`) runs while the worker is still opening the file, so the
notification finds no waiter; the worker then writes the header, reads
`stop_ == false` and blocks in `wait` with a non-empty queue. -/
def lostWakeTrace : List Label :=
  [.write row1, .wOpenOk, .wHeader, .wCheckFalse, .wEnterWait]

/-- The state `lostWakeTrace` ends in: suspended with one line queued. -/
def lostWakeEnd : LoggerState :=
  { wpc := .waiting, q := ["1,2.000000,a"], stop := false,
    file := .opened ["t,x,y\n"], headerDone := true,
    pushed := ["1,2.000000,a"], pushedBeforeStop := ["1,2.000000,a"],
    written := [], errLog := [] }

/-- A schedule where the open fails and a row is written afterwards. -/
def openFailTrace : List Label := [.wOpenFail, .write row1]

/-- The state `openFailTrace` ends in: worker dead, line queued but lost. -/
def openFailEnd : LoggerState :=
  { wpc := .failed, q := ["1,2.000000,a"], stop := false, file := .noFile,
    headerDone := false, pushed := ["1,2.000000,a"],
    pushedBeforeStop := ["1,2.000000,a"], written := [],
    errLog := [openFailMsg "out.csv"] }


/-- Boolean test for the two open labels. -/
def isOpenLabel : Label → Bool :=
  fun l => l == Label.wOpenOk || l == Label.wOpenFail

/-- Helper for relating `buildString` to `String.intercalate`: the text
contributed by the remaining fields, each preceded by the delimiter. -/
def sepJoin : List CsvField → String
  | [] => ""
  | t :: ts => "," ++ cppToString t ++ sepJoin ts

/- ### The system invariant -/

/-- Invariant of every reachable `CSVWriter` state.  The conjuncts:
1. lines pushed before the stop request form an initial segment of all
   pushed lines;
2. while `stop_` is `false` the two ghost push logs coincide;
3. ledger: pushed lines = lines written to the file ++ lines still queued;
4. if the file was never opened the worker is before the open or has failed;
5. before the open nothing has happened yet;
6. after a failed open: no file, nothing written, exactly the diagnostic;
7. at the header step the file is open and still empty;
8. the file holds the header chunk (if written) followed by the written
   data lines, each newline-terminated, in order;
9. the worker only reaches the final drain, the close or the end after a
   stop request;
10. from the close onwards, the lines pushed before the stop request are an
    initial segment of the written lines;
11. a finished worker has closed the file;
12. past the header step the header phase is recorded as done. -/
def ReachInv (c : Config) (s : LoggerState) : Prop :=
  (∃ t, s.pushed = s.pushedBeforeStop ++ t) ∧
  (s.stop = false → s.pushed = s.pushedBeforeStop) ∧
  (s.pushed = s.written ++ s.q) ∧
  (s.file = .noFile → s.wpc = .start ∨ s.wpc = .failed) ∧
  (s.wpc = .start →
    s.file = .noFile ∧ s.written = [] ∧ s.headerDone = false ∧ s.errLog = []) ∧
  (s.wpc = .failed →
    s.file = .noFile ∧ s.written = [] ∧ s.errLog = [openFailMsg c.path]) ∧
  (s.wpc = .header → s.file = .opened [] ∧ s.written = [] ∧ s.headerDone = false) ∧
  (∀ ch, fileChunks s = some ch →
    ch = hdrChunksOf c s ++ s.written.map (· ++ "\n")) ∧
  ((s.wpc = .finalDrain ∨ s.wpc = .closing ∨ s.wpc = .done) → s.stop = true) ∧
  ((s.wpc = .closing ∨ s.wpc = .done) →
    ∃ t, s.written = s.pushedBeforeStop ++ t) ∧
  (s.wpc = .done → ∃ ch, s.file = .closed ch) ∧
  ((s.wpc ≠ .start ∧ s.wpc ≠ .header ∧ s.wpc ≠ .failed) → s.headerDone = true)

lemma inv_init (c : Config) : ReachInv c initState := by
  refine ⟨⟨[], rfl⟩, fun _ => rfl, rfl, fun _ => Or.inl rfl, ?_, ?_, ?_, ?_, ?_, ?_, ?_, ?_⟩ <;>
    simp [initState, fileChunks]

lemma wake_ne {p : WorkerPC} (h : p ≠ .waiting) : wakeIfWaiting p = p := by
  cases p <;> first | rfl | exact absurd rfl h

set_option maxHeartbeats 1000000 in
lemma inv_step {c : Config} {l : Label} {s s' : LoggerState}
    (hI : ReachInv c s) (h : stepL c l s = some s') : ReachInv c s' := by
  obtain ⟨h1, h2, h3, h4, h5, h6, h7, h8, h9, h10, h11, h12⟩ := hI
  obtain ⟨t, ht⟩ := h1
  cases l with
  | write fs =>
    simp only [stepL, Option.some.injEq] at h
    subst h
    by_cases hww : s.wpc = WorkerPC.waiting
    · rw [hww]
      simp only [wakeIfWaiting]
      refine ⟨?_, ?_, ?_, ?_, fun hx => WorkerPC.noConfusion hx,
        fun hx => WorkerPC.noConfusion hx, fun hx => WorkerPC.noConfusion hx, h8,
        ?_, ?_, fun hx => WorkerPC.noConfusion hx, ?_⟩
      · cases hst : s.stop
        · exact ⟨[], by simp [hst, h2 hst]⟩
        · exact ⟨t ++ [buildString fs], by simp [hst, ht]⟩
      · intro hsf
        have hsf' : s.stop = false := hsf
        simp [hsf', h2 hsf']
      · show s.pushed ++ [buildString fs] = s.written ++ (s.q ++ [buildString fs])
        rw [h3, List.append_assoc]
      · intro hf
        rcases h4 hf with hw | hw <;> rw [hww] at hw <;> exact WorkerPC.noConfusion hw
      · rintro (hx | hx | hx) <;> exact WorkerPC.noConfusion hx
      · rintro (hx | hx) <;> exact WorkerPC.noConfusion hx
      · exact fun _ => h12 ⟨by simp [hww], by simp [hww], by simp [hww]⟩
    · rw [wake_ne hww]
      refine ⟨?_, ?_, ?_, h4, h5, h6, h7, h8, h9, ?_, h11, h12⟩
      · cases hst : s.stop
        · exact ⟨[], by simp [hst, h2 hst]⟩
        · exact ⟨t ++ [buildString fs], by simp [hst, ht]⟩
      · intro hsf
        have hsf' : s.stop = false := hsf
        simp [hsf', h2 hsf']
      · show s.pushed ++ [buildString fs] = s.written ++ (s.q ++ [buildString fs])
        rw [h3, List.append_assoc]
      · intro hd
        have hst : s.stop = true :=
          h9 (hd.elim (fun hx => Or.inr (Or.inl hx)) (fun hx => Or.inr (Or.inr hx)))
        have hres := h10 hd
        show ∃ t', s.written =
          (if s.stop = true then s.pushedBeforeStop
           else s.pushedBeforeStop ++ [buildString fs]) ++ t'
        rw [if_pos hst]
        exact hres
  | reqStop =>
    simp only [stepL, Option.some.injEq] at h
    subst h
    by_cases hww : s.wpc = WorkerPC.waiting
    · rw [hww]
      simp only [wakeIfWaiting]
      refine ⟨⟨t, ht⟩, fun hq => Bool.noConfusion hq, h3, ?_,
        fun hx => WorkerPC.noConfusion hx, fun hx => WorkerPC.noConfusion hx,
        fun hx => WorkerPC.noConfusion hx, h8, ?_, ?_,
        fun hx => WorkerPC.noConfusion hx, ?_⟩
      · intro hf
        rcases h4 hf with hw | hw <;> rw [hww] at hw <;> exact WorkerPC.noConfusion hw
      · rintro (hx | hx | hx) <;> exact WorkerPC.noConfusion hx
      · rintro (hx | hx) <;> exact WorkerPC.noConfusion hx
      · exact fun _ => h12 ⟨by simp [hww], by simp [hww], by simp [hww]⟩
    · rw [wake_ne hww]
      exact ⟨⟨t, ht⟩, fun hq => Bool.noConfusion hq, h3, h4, h5, h6, h7, h8,
        fun _ => rfl, h10, h11, h12⟩
  | wOpenOk =>
    simp only [stepL] at h
    split at h
    all_goals try exact Option.noConfusion h
    rename_i hw
    simp only [Option.some.injEq] at h
    subst h
    obtain ⟨hf, hwr, hhd, herr⟩ := h5 hw
    refine ⟨⟨t, ht⟩, h2, h3, fun hx => FileSt.noConfusion hx,
      fun hx => WorkerPC.noConfusion hx, fun hx => WorkerPC.noConfusion hx,
      fun _ => ⟨rfl, hwr, hhd⟩, ?_, ?_, ?_, fun hx => WorkerPC.noConfusion hx, ?_⟩
    · intro ch hch
      injection hch with hch
      subst hch
      simp [hdrChunksOf, hhd, hwr]
    · rintro (hx | hx | hx) <;> exact WorkerPC.noConfusion hx
    · rintro (hx | hx) <;> exact WorkerPC.noConfusion hx
    · rintro ⟨-, hx, -⟩
      exact absurd rfl hx
  | wOpenFail =>
    simp only [stepL] at h
    split at h
    all_goals try exact Option.noConfusion h
    rename_i hw
    simp only [Option.some.injEq] at h
    subst h
    obtain ⟨hf, hwr, hhd, herr⟩ := h5 hw
    refine ⟨⟨t, ht⟩, h2, h3, fun _ => Or.inr rfl,
      fun hx => WorkerPC.noConfusion hx, fun _ => ⟨hf, hwr, by rw [herr]; rfl⟩,
      fun hx => WorkerPC.noConfusion hx, ?_, ?_, ?_,
      fun hx => WorkerPC.noConfusion hx, ?_⟩
    · intro ch hch
      simp [fileChunks, hf] at hch
    · rintro (hx | hx | hx) <;> exact WorkerPC.noConfusion hx
    · rintro (hx | hx) <;> exact WorkerPC.noConfusion hx
    · rintro ⟨-, -, hx⟩
      exact absurd rfl hx
  | wHeader =>
    simp only [stepL] at h
    split at h
    all_goals try exact Option.noConfusion h
    rename_i ch hw hf
    simp only [Option.some.injEq] at h
    subst h
    obtain ⟨hfo, hwr, hhd⟩ := h7 hw
    rw [hfo] at hf
    injection hf with hceq
    subst hceq
    refine ⟨⟨t, ht⟩, h2, h3, fun hx => FileSt.noConfusion hx,
      fun hx => WorkerPC.noConfusion hx, fun hx => WorkerPC.noConfusion hx,
      fun hx => WorkerPC.noConfusion hx, ?_, ?_, ?_,
      fun hx => WorkerPC.noConfusion hx, fun _ => rfl⟩
    · intro ch' hch
      injection hch with hch
      subst hch
      cases hh : c.hasHeader <;> simp [hdrChunksOf, hwr, hh]
    · rintro (hx | hx | hx) <;> exact WorkerPC.noConfusion hx
    · rintro (hx | hx) <;> exact WorkerPC.noConfusion hx
  | wCheckTrue =>
    simp only [stepL] at h
    split at h
    all_goals try exact Option.noConfusion h
    rename_i hw
    split at h
    all_goals try exact Option.noConfusion h
    rename_i hst
    simp only [Option.some.injEq] at h
    subst h
    refine ⟨⟨t, ht⟩, h2, h3, ?_, fun hx => WorkerPC.noConfusion hx,
      fun hx => WorkerPC.noConfusion hx, fun hx => WorkerPC.noConfusion hx, h8,
      fun _ => hst, ?_, fun hx => WorkerPC.noConfusion hx, ?_⟩
    · intro hf
      rcases h4 hf with hx | hx <;> rw [hw] at hx <;> exact WorkerPC.noConfusion hx
    · rintro (hx | hx) <;> exact WorkerPC.noConfusion hx
    · exact fun _ => h12 ⟨by simp [hw], by simp [hw], by simp [hw]⟩
  | wCheckFalse =>
    simp only [stepL] at h
    split at h
    all_goals try exact Option.noConfusion h
    rename_i hw
    split at h
    all_goals try exact Option.noConfusion h
    simp only [Option.some.injEq] at h
    subst h
    refine ⟨⟨t, ht⟩, h2, h3, ?_, fun hx => WorkerPC.noConfusion hx,
      fun hx => WorkerPC.noConfusion hx, fun hx => WorkerPC.noConfusion hx, h8,
      ?_, ?_, fun hx => WorkerPC.noConfusion hx, ?_⟩
    · intro hf
      rcases h4 hf with hx | hx <;> rw [hw] at hx <;> exact WorkerPC.noConfusion hx
    · rintro (hx | hx | hx) <;> exact WorkerPC.noConfusion hx
    · rintro (hx | hx) <;> exact WorkerPC.noConfusion hx
    · exact fun _ => h12 ⟨by simp [hw], by simp [hw], by simp [hw]⟩
  | wEnterWait =>
    simp only [stepL] at h
    split at h
    all_goals try exact Option.noConfusion h
    rename_i hw
    simp only [Option.some.injEq] at h
    subst h
    refine ⟨⟨t, ht⟩, h2, h3, ?_, fun hx => WorkerPC.noConfusion hx,
      fun hx => WorkerPC.noConfusion hx, fun hx => WorkerPC.noConfusion hx, h8,
      ?_, ?_, fun hx => WorkerPC.noConfusion hx, ?_⟩
    · intro hf
      rcases h4 hf with hx | hx <;> rw [hw] at hx <;> exact WorkerPC.noConfusion hx
    · rintro (hx | hx | hx) <;> exact WorkerPC.noConfusion hx
    · rintro (hx | hx) <;> exact WorkerPC.noConfusion hx
    · exact fun _ => h12 ⟨by simp [hw], by simp [hw], by simp [hw]⟩
  | wPop =>
    simp only [stepL] at h
    split at h
    all_goals try exact Option.noConfusion h
    rename_i f rest ch hw hq hf
    simp only [Option.some.injEq] at h
    subst h
    refine ⟨⟨t, ht⟩, h2, ?_, fun hx => FileSt.noConfusion hx,
      fun hx => WorkerPC.noConfusion (hw.symm.trans hx),
      fun hx => WorkerPC.noConfusion (hw.symm.trans hx),
      fun hx => WorkerPC.noConfusion (hw.symm.trans hx), ?_, ?_, ?_,
      fun hx => WorkerPC.noConfusion (hw.symm.trans hx), ?_⟩
    · show s.pushed = (s.written ++ [f]) ++ rest
      rw [h3, hq]
      simp
    · intro ch' hch
      injection hch with hch
      subst hch
      have hc := h8 ch (by simp [fileChunks, hf])
      rw [hc]
      simp [hdrChunksOf]
    · rintro (hx | hx | hx) <;> exact WorkerPC.noConfusion (hw.symm.trans hx)
    · rintro (hx | hx) <;> exact WorkerPC.noConfusion (hw.symm.trans hx)
    · exact fun _ => h12 ⟨by simp [hw], by simp [hw], by simp [hw]⟩
  | wDrainEmpty =>
    simp only [stepL] at h
    split at h
    all_goals try exact Option.noConfusion h
    rename_i hw hq
    simp only [Option.some.injEq] at h
    subst h
    refine ⟨⟨t, ht⟩, h2, h3, ?_, fun hx => WorkerPC.noConfusion hx,
      fun hx => WorkerPC.noConfusion hx, fun hx => WorkerPC.noConfusion hx, h8,
      ?_, ?_, fun hx => WorkerPC.noConfusion hx, ?_⟩
    · intro hf
      rcases h4 hf with hx | hx <;> rw [hw] at hx <;> exact WorkerPC.noConfusion hx
    · rintro (hx | hx | hx) <;> exact WorkerPC.noConfusion hx
    · rintro (hx | hx) <;> exact WorkerPC.noConfusion hx
    · exact fun _ => h12 ⟨by simp [hw], by simp [hw], by simp [hw]⟩
  | wFinalPop =>
    simp only [stepL] at h
    split at h
    all_goals try exact Option.noConfusion h
    rename_i f rest ch hw hq hf
    simp only [Option.some.injEq] at h
    subst h
    refine ⟨⟨t, ht⟩, h2, ?_, fun hx => FileSt.noConfusion hx,
      fun hx => WorkerPC.noConfusion (hw.symm.trans hx),
      fun hx => WorkerPC.noConfusion (hw.symm.trans hx),
      fun hx => WorkerPC.noConfusion (hw.symm.trans hx), ?_,
      fun _ => h9 (Or.inl hw), ?_,
      fun hx => WorkerPC.noConfusion (hw.symm.trans hx), ?_⟩
    · show s.pushed = (s.written ++ [f]) ++ rest
      rw [h3, hq]
      simp
    · intro ch' hch
      injection hch with hch
      subst hch
      have hc := h8 ch (by simp [fileChunks, hf])
      rw [hc]
      simp [hdrChunksOf]
    · rintro (hx | hx) <;> exact WorkerPC.noConfusion (hw.symm.trans hx)
    · exact fun _ => h12 ⟨by simp [hw], by simp [hw], by simp [hw]⟩
  | wFinalEmpty =>
    simp only [stepL] at h
    split at h
    all_goals try exact Option.noConfusion h
    rename_i hw hq
    simp only [Option.some.injEq] at h
    subst h
    have hpw : s.pushed = s.written := by rw [h3, hq, List.append_nil]
    refine ⟨⟨t, ht⟩, h2, h3, ?_, fun hx => WorkerPC.noConfusion hx,
      fun hx => WorkerPC.noConfusion hx, fun hx => WorkerPC.noConfusion hx, h8,
      fun _ => h9 (Or.inl hw), fun _ => ⟨t, by rw [← hpw, ht]⟩,
      fun hx => WorkerPC.noConfusion hx, ?_⟩
    · intro hf
      rcases h4 hf with hx | hx <;> rw [hw] at hx <;> exact WorkerPC.noConfusion hx
    · exact fun _ => h12 ⟨by simp [hw], by simp [hw], by simp [hw]⟩
  | wClose =>
    simp only [stepL] at h
    split at h
    all_goals try exact Option.noConfusion h
    rename_i ch hw hf
    simp only [Option.some.injEq] at h
    subst h
    refine ⟨⟨t, ht⟩, h2, h3, fun hx => FileSt.noConfusion hx,
      fun hx => WorkerPC.noConfusion hx, fun hx => WorkerPC.noConfusion hx,
      fun hx => WorkerPC.noConfusion hx, ?_,
      fun _ => h9 (Or.inr (Or.inl hw)), fun _ => h10 (Or.inl hw),
      fun _ => ⟨ch, rfl⟩, ?_⟩
    · intro ch' hch
      injection hch with hch
      subst hch
      exact h8 ch (by simp [fileChunks, hf])
    · exact fun _ => h12 ⟨by simp [hw], by simp [hw], by simp [hw]⟩

lemma inv_run {c : Config} : ∀ {lbls : List Label} {s s' : LoggerState},
    ReachInv c s → run c lbls s = some s' → ReachInv c s' := by
  intro lbls
  induction lbls with
  | nil =>
    intro s s' hI h
    simp only [run, Option.some.injEq] at h
    subst h
    exact hI
  | cons l ls ih =>
    intro s s' hI h
    simp only [run] at h
    cases hs : stepL c l s with
    | none =>
      rw [hs] at h
      exact Option.noConfusion h
    | some s1 =>
      rw [hs] at h
      exact ih (inv_step hI hs) h

lemma run_append {c : Config} : ∀ (as bs : List Label) (s : LoggerState),
    run c (as ++ bs) s = (run c as s).bind (run c bs) := by
  intro as
  induction as with
  | nil => intro bs s; simp [run]
  | cons l ls ih =>
    intro bs s
    simp only [List.cons_append, run]
    cases stepL c l s with
    | none => simp
    | some s1 => simpa using ih bs s1

lemma stepL_openOk {c : Config} {s s' : LoggerState}
    (h : stepL c .wOpenOk s = some s') :
    s.wpc = .start ∧ s'.wpc = .header ∧ s'.file = .opened [] := by
  simp only [stepL] at h
  split at h
  · rename_i hw
    simp only [Option.some.injEq] at h
    subst h
    exact ⟨hw, rfl, rfl⟩
  · exact Option.noConfusion h

lemma stepL_openFail {c : Config} {s s' : LoggerState}
    (h : stepL c .wOpenFail s = some s') : s.wpc = .start ∧ s'.wpc = .failed := by
  simp only [stepL] at h
  split at h
  · rename_i hw
    simp only [Option.some.injEq] at h
    subst h
    exact ⟨hw, rfl⟩
  · exact Option.noConfusion h

lemma stepL_close {c : Config} {s s' : LoggerState}
    (h : stepL c .wClose s = some s') : s.wpc = .closing ∧ s'.wpc = .done := by
  simp only [stepL] at h
  split at h
  · rename_i ch hw hf
    simp only [Option.some.injEq] at h
    subst h
    exact ⟨hw, rfl⟩
  · exact Option.noConfusion h

lemma step_failed {c : Config} {l : Label} {s s' : LoggerState}
    (hw : s.wpc = WorkerPC.failed) (h : stepL c l s = some s') :
    s'.wpc = WorkerPC.failed := by
  cases l <;>
    simp only [stepL] at h <;>
    (try split at h) <;>
    (try split at h) <;>
    first
      | exact Option.noConfusion h
      | (simp only [Option.some.injEq] at h; subst h;
         first
           | (show wakeIfWaiting s.wpc = _; rw [hw]; rfl)
           | exact hw
           | simp_all)

lemma step_done {c : Config} {l : Label} {s s' : LoggerState}
    (hw : s.wpc = WorkerPC.done) (h : stepL c l s = some s') :
    s'.wpc = WorkerPC.done := by
  cases l <;>
    simp only [stepL] at h <;>
    (try split at h) <;>
    (try split at h) <;>
    first
      | exact Option.noConfusion h
      | (simp only [Option.some.injEq] at h; subst h;
         first
           | (show wakeIfWaiting s.wpc = _; rw [hw]; rfl)
           | exact hw
           | simp_all)

lemma run_failed {c : Config} : ∀ {lbls : List Label} {s s' : LoggerState},
    s.wpc = WorkerPC.failed → run c lbls s = some s' → s'.wpc = WorkerPC.failed := by
  intro lbls
  induction lbls with
  | nil =>
    intro s s' hw h
    simp only [run, Option.some.injEq] at h
    subst h
    exact hw
  | cons l ls ih =>
    intro s s' hw h
    simp only [run] at h
    cases hs : stepL c l s with
    | none =>
      rw [hs] at h
      exact Option.noConfusion h
    | some s1 =>
      rw [hs] at h
      exact ih (step_failed hw hs) h

lemma wake_eq_of_ne {p x : WorkerPC} (hx : x ≠ .drain) (h : wakeIfWaiting p = x) :
    p = x := by
  cases p <;> first | exact h | exact absurd h.symm hx

lemma step_ne_start {c : Config} {l : Label} {s s' : LoggerState}
    (hw : s.wpc ≠ WorkerPC.start) (h : stepL c l s = some s') :
    s'.wpc ≠ WorkerPC.start := by
  cases l <;>
    simp only [stepL] at h <;>
    (try split at h) <;>
    (try split at h) <;>
    first
      | exact Option.noConfusion h
      | (simp only [Option.some.injEq] at h; subst h;
         first
           | exact fun hx => WorkerPC.noConfusion hx
           | exact hw
           | exact fun hx => hw (wake_eq_of_ne (fun hq => WorkerPC.noConfusion hq) hx))

lemma countP_opens_le {c : Config} : ∀ {lbls : List Label} {s s' : LoggerState},
    run c lbls s = some s' →
    lbls.countP isOpenLabel ≤ (if s.wpc = WorkerPC.start then 1 else 0) := by
  intro lbls
  induction lbls with
  | nil =>
    intro s s' h
    simp
  | cons l ls ih =>
    intro s s' h
    simp only [run] at h
    cases hs : stepL c l s with
    | none =>
      rw [hs] at h
      exact Option.noConfusion h
    | some s1 =>
      rw [hs] at h
      have hrest := ih h
      by_cases hl : isOpenLabel l = true
      · have hse : s.wpc = WorkerPC.start ∧ s1.wpc ≠ WorkerPC.start := by
          cases l <;> simp [isOpenLabel] at hl
          · rcases stepL_openOk hs with ⟨ha, hb, -⟩
            exact ⟨ha, by rw [hb]; exact fun hx => WorkerPC.noConfusion hx⟩
          · rcases stepL_openFail hs with ⟨ha, hb⟩
            exact ⟨ha, by rw [hb]; exact fun hx => WorkerPC.noConfusion hx⟩
        rw [if_neg hse.2] at hrest
        have hc : (l :: ls).countP isOpenLabel = ls.countP isOpenLabel + 1 := by
          simp [List.countP_cons, hl]
        rw [hc, if_pos hse.1]
        omega
      · have hl' : isOpenLabel l = false := by revert hl; cases isOpenLabel l <;> simp
        have hc : (l :: ls).countP isOpenLabel = ls.countP isOpenLabel := by
          simp [List.countP_cons, hl']
        rw [hc]
        by_cases hstart : s.wpc = WorkerPC.start
        · rw [if_pos hstart]
          refine le_trans hrest ?_
          split <;> omega
        · have h1 : s1.wpc ≠ WorkerPC.start := step_ne_start hstart hs
          rw [if_neg h1] at hrest
          rw [if_neg hstart]
          exact hrest

lemma count_close_le {c : Config} : ∀ {lbls : List Label} {s s' : LoggerState},
    run c lbls s = some s' →
    lbls.count Label.wClose ≤
      (if s.wpc = WorkerPC.done ∨ s.wpc = WorkerPC.failed then 0 else 1) := by
  intro lbls
  induction lbls with
  | nil =>
    intro s s' h
    simp
  | cons l ls ih =>
    intro s s' h
    simp only [run] at h
    cases hs : stepL c l s with
    | none =>
      rw [hs] at h
      exact Option.noConfusion h
    | some s1 =>
      rw [hs] at h
      have hrest := ih h
      by_cases hl : l = Label.wClose
      · subst hl
        rcases stepL_close hs with ⟨ha, hb⟩
        have hnd : ¬(s.wpc = WorkerPC.done ∨ s.wpc = WorkerPC.failed) := by
          rw [ha]
          rintro (hx | hx) <;> exact WorkerPC.noConfusion hx
        have h1 : s1.wpc = WorkerPC.done ∨ s1.wpc = WorkerPC.failed := Or.inl hb
        rw [if_pos h1] at hrest
        have hc : (Label.wClose :: ls).count Label.wClose = ls.count Label.wClose + 1 := by
          simp [List.count_cons]
        rw [hc, if_neg hnd]
        omega
      · have hl' : (l == Label.wClose) = false := beq_eq_false_iff_ne.mpr hl
        have hc : (l :: ls).count Label.wClose = ls.count Label.wClose := by
          simp [List.count_cons, hl']
        rw [hc]
        by_cases hdf : s.wpc = WorkerPC.done ∨ s.wpc = WorkerPC.failed
        · have h1 : s1.wpc = WorkerPC.done ∨ s1.wpc = WorkerPC.failed := by
            rcases hdf with hx | hx
            · exact Or.inl (step_done hx hs)
            · exact Or.inr (step_failed hx hs)
          rw [if_pos h1] at hrest
          rw [if_pos hdf]
          exact hrest
        · rw [if_neg hdf]
          refine le_trans hrest ?_
          split <;> omega

lemma go_sepJoin : ∀ (ts : List CsvField) (acc : String),
    String.intercalate.go acc "," (ts.map cppToString) = acc ++ sepJoin ts := by
  intro ts
  induction ts with
  | nil =>
    intro acc
    simp [String.intercalate.go, sepJoin]
  | cons t ts ih =>
    intro acc
    simp only [List.map_cons, String.intercalate.go, sepJoin]
    rw [ih]
    simp [String.append_assoc]

lemma buildString_sepJoin : ∀ (t : CsvField) (ts : List CsvField),
    buildString (t :: ts) = cppToString t ++ sepJoin ts := by
  intro t ts
  induction ts generalizing t with
  | nil => simp [buildString, sepJoin]
  | cons u us ih =>
    simp only [buildString, sepJoin]
    rw [ih u]
    simp [String.append_assoc]

lemma buildString_eq_intercalate {fs : List CsvField} (h : fs ≠ []) :
    buildString fs = String.intercalate "," (fs.map cppToString) := by
  cases fs with
  | nil => exact absurd rfl h
  | cons t ts =>
    simp only [List.map_cons, String.intercalate]
    rw [go_sepJoin, buildString_sepJoin]

lemma stdResize_length {T : Type} (l : List T) (n : ℕ) (d : T) :
    (buffered_vector.stdResize l n d).length = n := by
  unfold buffered_vector.stdResize
  split
  · simp
    omega
  · simp
    omega

/-- C9: for every `buffered_vector` `v` and index `i`, `v.at(i)` returns the
i-th stored element when `i < v.size()` and throws the runtime error
`"Index out of bounds!"` when `i >= v.size()` — even when `i` is still below
`v.capacity()` — while `operator[]` performs no bounds check at all: it is
the unconditional raw read `data_ptr_[i]`, which in particular yields a
stored element for every `i < capacity()`. -/
theorem C9_at_checks_subscript_does_not {T : Type} (v : buffered_vector T)
    (i : ℕ) :
    (i < v.size_ → v.at_ i = .ok (v.rawRead i)) ∧
    (v.size_ ≤ i → v.at_ i = .error "Index out of bounds!") ∧
    v.subscript i = v.rawRead i ∧
    (i < v.capacity → ∃ x, v.subscript i = some x) := by
  refine ⟨?_, ?_, rfl, ?_⟩
  · intro h
    simp only [buffered_vector.at_]
    rw [if_neg (by omega)]
  · intro h
    simp only [buffered_vector.at_]
    rw [if_pos h]
  · intro h
    exact ⟨v.data_[i], List.getElem?_eq_getElem h⟩

theorem C9_witness :
    buffered_vector.at_ (⟨1, [10, 20]⟩ : buffered_vector ℕ) 1 =
      .error "Index out of bounds!" ∧
    buffered_vector.subscript (⟨1, [10, 20]⟩ : buffered_vector ℕ) 1 = some 20 := by
  have h := C9_at_checks_subscript_does_not (⟨1, [10, 20]⟩ : buffered_vector ℕ) 1
  exact ⟨h.2.1 (by decide), by decide⟩

/-- C10 counterexample: not every `buffered_vector` operation preserves
`size() <= capacity()`.  Starting from the default-constructed vector (which
satisfies the invariant), the two-argument `resize(5, 3)` produces
`size() = 5 > capacity() = 3`: that overload sets `size_` and the backing
vector's length directly with no check (unlike the constructors, which
`assert(size <= capacity)`). -/
theorem C10_counterexample :
    (⟨0, []⟩ : buffered_vector ℕ).size ≤ (⟨0, []⟩ : buffered_vector ℕ).capacity ∧
    ¬((buffered_vector.resize2 (⟨0, []⟩ : buffered_vector ℕ) 5 3 0).size ≤
      (buffered_vector.resize2 (⟨0, []⟩ : buffered_vector ℕ) 5 3 0).capacity) ∧
    (buffered_vector.resize2 (⟨0, []⟩ : buffered_vector ℕ) 5 3 0).size = 5 ∧
    (buffered_vector.resize2 (⟨0, []⟩ : buffered_vector ℕ) 5 3 0).capacity = 3 := by
  decide

/-- C10 (amended): `push_back` and `emplace_back` throw
`"Buffered vector reached the capacity limit!"` exactly when `size()` equals
`capacity()`, and otherwise store the value at index `size()` and increment
`size()` by one, leaving `capacity()` unchanged; the single-argument `resize`
resets `size()` to zero; `clear()` sets `size()` to zero without touching the
capacity or the stored elements.  All these operations preserve
`size() <= capacity()`; only the two-argument `resize` can violate it. -/
theorem C10_push_resize_clear {T : Type} (v : buffered_vector T) (x : T)
    (n : ℕ) (d : T) (hb : v.size ≤ v.capacity) :
    (v.size = v.capacity →
      v.push_back x = .error "Buffered vector reached the capacity limit!" ∧
      v.emplace_back x = .error "Buffered vector reached the capacity limit!") ∧
    (v.size < v.capacity →
      ∃ v', v.push_back x = .ok v' ∧ v.emplace_back x = .ok v' ∧
        v'.size = v.size + 1 ∧ v'.capacity = v.capacity ∧
        v'.rawRead v.size = some x ∧
        (∀ j, j ≠ v.size → v'.rawRead j = v.rawRead j) ∧
        v'.size ≤ v'.capacity) ∧
    ((v.resize1 n d).size = 0 ∧ (v.resize1 n d).capacity = n ∧
      (v.resize1 n d).size ≤ (v.resize1 n d).capacity) ∧
    (v.clear.size = 0 ∧ v.clear.data_ = v.data_ ∧ v.clear.capacity = v.capacity ∧
      v.clear.size ≤ v.clear.capacity) := by
  refine ⟨?_, ?_, ?_, ?_⟩
  · intro he
    have he' : v.size_ = v.data_.length := he
    constructor <;>
      · simp only [buffered_vector.push_back, buffered_vector.emplace_back]
        rw [if_pos he']
  · intro hlt
    have hne : ¬(v.size_ = v.data_.length) := Nat.ne_of_lt hlt
    refine ⟨{ size_ := v.size_ + 1, data_ := v.data_.set v.size_ x },
      ?_, ?_, rfl, ?_, ?_, ?_, ?_⟩
    · simp only [buffered_vector.push_back]
      rw [if_neg hne]
    · simp only [buffered_vector.emplace_back]
      rw [if_neg hne]
    · show (v.data_.set v.size_ x).length = v.data_.length
      simp
    · have hlt' : v.size_ < v.data_.length := hlt
      show (v.data_.set v.size_ x)[v.size_]? = some x
      simp [List.getElem?_set_self, hlt']
    · intro j hj
      have hj' : j ≠ v.size_ := hj
      show (v.data_.set v.size_ x)[j]? = v.data_[j]?
      rw [List.getElem?_set_ne (Ne.symm hj')]
    · have hlt' : v.size_ < v.data_.length := hlt
      show v.size_ + 1 ≤ (v.data_.set v.size_ x).length
      simp
      omega
  · exact ⟨rfl, stdResize_length v.data_ n d, by
      show 0 ≤ (buffered_vector.stdResize v.data_ n d).length
      exact Nat.zero_le _⟩
  · exact ⟨rfl, rfl, rfl, Nat.zero_le _⟩

theorem C10_witness :
    buffered_vector.push_back (⟨2, [7, 8]⟩ : buffered_vector ℕ) 9 =
      .error "Buffered vector reached the capacity limit!" ∧
    (buffered_vector.clear (⟨2, [7, 8]⟩ : buffered_vector ℕ)).size = 0 := by
  have h := C10_push_resize_clear (⟨2, [7, 8]⟩ : buffered_vector ℕ) 9 1 0 (by decide)
  exact ⟨(h.1 (by decide)).1, h.2.2.2.1⟩

/-- C4: the drain writes queued lines to the file in FIFO order, each
followed by a newline, with no reordering, duplication or omission: in every
reachable state, the pushed lines are exactly the written lines followed by
the still-queued lines (both in order), and the file consists of the header
chunk followed by exactly the written lines, each newline-terminated, in
write order. -/
theorem C4_fifo_drain (c : Config) (lbls : List Label) (s : LoggerState)
    (h : run c lbls initState = some s) :
    s.pushed = s.written ++ s.q ∧
    ∀ ch, fileChunks s = some ch →
      ch = hdrChunksOf c s ++ s.written.map (· ++ "\n") := by
  obtain ⟨h1, h2, h3, h4, h5, h6, h7, h8, h9, h10, h11, h12⟩ :=
    inv_run (inv_init c) h
  exact ⟨h3, h8⟩

theorem C4_witness :
    demoEnd.pushed = demoEnd.written ++ demoEnd.q ∧
    ∀ ch, fileChunks demoEnd = some ch →
      ch = hdrChunksOf cfg3 demoEnd ++ demoEnd.written.map (· ++ "\n") :=
  C4_fifo_drain cfg3 demoTrace demoEnd (by decide)

/-- C2: every line enqueued by a `write` call before the stop flag was set is
present in the output file once the worker has finished its normal path
(`wpc = done`, the state in which the destructor's `join` returns): at that
point a stop was requested, the final drain has run, and the file has been
flushed and closed with all such lines in it.  (The open-failure path ends in
`wpc = failed` instead and is covered by C3.) -/
theorem C2_flush_on_shutdown (c : Config) (lbls : List Label) (s : LoggerState)
    (h : run c lbls initState = some s) (hdone : s.wpc = WorkerPC.done) :
    s.stop = true ∧ ∃ ch, s.file = FileSt.closed ch ∧
      ∀ l ∈ s.pushedBeforeStop, (l ++ "\n") ∈ ch := by
  obtain ⟨h1, h2, h3, h4, h5, h6, h7, h8, h9, h10, h11, h12⟩ :=
    inv_run (inv_init c) h
  obtain ⟨ch, hch⟩ := h11 hdone
  obtain ⟨t, hwt⟩ := h10 (Or.inr hdone)
  refine ⟨h9 (Or.inr (Or.inr hdone)), ch, hch, ?_⟩
  intro l hl
  have hmem : l ∈ s.written := by
    rw [hwt]
    exact List.mem_append_left t hl
  have hcheq := h8 ch (by simp [fileChunks, hch])
  rw [hcheq]
  exact List.mem_append_right _ (List.mem_map_of_mem _ hmem)

theorem C2_witness :
    demoEnd.stop = true ∧ ∃ ch, demoEnd.file = FileSt.closed ch ∧
      ∀ l ∈ demoEnd.pushedBeforeStop, (l ++ "\n") ∈ ch :=
  C2_flush_on_shutdown cfg3 demoTrace demoEnd (by decide) (by decide)

/-- C3: if the open fails, the worker prints exactly the diagnostic to the
error stream and terminates; no byte is ever written to any file (the file
state stays `noFile` and the written-lines log stays empty), no error is
surfaced anywhere, and `write` remains enabled afterwards: it still enqueues
its line (which is silently lost) and leaves the file and error log
untouched. -/
theorem C3_open_failure (c : Config) (lbls : List Label) (s : LoggerState)
    (h : run c lbls initState = some s) (hmem : Label.wOpenFail ∈ lbls) :
    s.wpc = WorkerPC.failed ∧ s.file = FileSt.noFile ∧ s.written = [] ∧
      s.errLog = [openFailMsg c.path] ∧
      ∀ fs, ∃ s', stepL c (.write fs) s = some s' ∧
        s'.q = s.q ++ [buildString fs] ∧ s'.file = FileSt.noFile ∧
        s'.errLog = s.errLog := by
  obtain ⟨h1, h2, h3, h4, h5, h6, h7, h8, h9, h10, h11, h12⟩ :=
    inv_run (inv_init c) h
  have hfail : s.wpc = WorkerPC.failed := by
    obtain ⟨as, bs, rfl⟩ := List.append_of_mem hmem
    rw [run_append] at h
    cases hr1 : run c as initState with
    | none =>
      rw [hr1] at h
      exact Option.noConfusion h
    | some s1 =>
      rw [hr1, Option.some_bind] at h
      simp only [run] at h
      cases hs2 : stepL c .wOpenFail s1 with
      | none =>
        rw [hs2] at h
        exact Option.noConfusion h
      | some s2 =>
        rw [hs2] at h
        exact run_failed (stepL_openFail hs2).2 h
  obtain ⟨hf, hwr, herr⟩ := h6 hfail
  refine ⟨hfail, hf, hwr, herr, ?_⟩
  intro fs
  exact ⟨_, rfl, rfl, hf, rfl⟩

theorem C3_witness :
    openFailEnd.wpc = WorkerPC.failed ∧ openFailEnd.file = FileSt.noFile ∧
    openFailEnd.written = [] ∧ openFailEnd.errLog = [openFailMsg cfg3.path] := by
  have h := C3_open_failure cfg3 openFailTrace openFailEnd (by decide) (by decide)
  exact ⟨h.1, h.2.1, h.2.2.1, h.2.2.2.1⟩

/-- C6: if and only if the writer was constructed with a header, the worker
writes the field names comma-joined followed by a newline, exactly once,
before any data row: with `has_header_` the file is exactly the single header
chunk followed by the data lines, and without it the file is exactly the
data lines — no header chunk is ever emitted, however many rows are
written. -/
theorem C6_header_iff (hdr : List String) (path : String) (lbls : List Label)
    (s : LoggerState) :
    (run ⟨true, hdr, path⟩ lbls initState = some s →
      ∀ ch, fileChunks s = some ch →
        ch = (if s.headerDone then [renderHeader hdr ++ "\n"] else []) ++
          s.written.map (· ++ "\n")) ∧
    (run ⟨false, hdr, path⟩ lbls initState = some s →
      ∀ ch, fileChunks s = some ch → ch = s.written.map (· ++ "\n")) := by
  constructor
  · intro h ch hch
    obtain ⟨h1, h2, h3, h4, h5, h6, h7, h8, h9, h10, h11, h12⟩ :=
      inv_run (inv_init _) h
    rw [h8 ch hch]
    by_cases hhd : s.headerDone = true <;> simp [hdrChunksOf, hhd]
  · intro h ch hch
    obtain ⟨h1, h2, h3, h4, h5, h6, h7, h8, h9, h10, h11, h12⟩ :=
      inv_run (inv_init _) h
    rw [h8 ch hch]
    simp [hdrChunksOf]

theorem C6_witness :
    (∀ ch, fileChunks demoEnd = some ch →
      ch = (if demoEnd.headerDone then [renderHeader ["t", "x", "y"] ++ "\n"]
            else []) ++ demoEnd.written.map (· ++ "\n")) ∧
    (∀ ch, fileChunks noHdrEnd = some ch →
      ch = noHdrEnd.written.map (· ++ "\n")) :=
  ⟨(C6_header_iff ["t", "x", "y"] "out.csv" demoTrace demoEnd).1 (by decide),
   (C6_header_iff ["", "", ""] "out.csv" noHdrTrace noHdrEnd).2 (by decide)⟩

/-- C7: at most one file handle ever exists: in any schedule that runs from
construction, at most one open (successful or failed) and at most one close
are ever executed; the open is performed only by the worker from its initial
program point (lazily, as its first action), a successful open truncates
(the file starts from empty content), and the close happens only at worker
exit (from the `closing` point). -/
theorem C7_one_open_one_close (c : Config) (lbls : List Label)
    (s : LoggerState) (h : run c lbls initState = some s) :
    lbls.countP isOpenLabel ≤ 1 ∧ lbls.count Label.wClose ≤ 1 ∧
    (∀ s₀ s₁ : LoggerState, stepL c .wOpenOk s₀ = some s₁ →
      s₀.wpc = .start ∧ s₁.file = .opened []) ∧
    (∀ s₀ s₁ : LoggerState, stepL c .wOpenFail s₀ = some s₁ →
      s₀.wpc = .start) ∧
    (∀ s₀ s₁ : LoggerState, stepL c .wClose s₀ = some s₁ →
      s₀.wpc = .closing) := by
  refine ⟨le_trans (countP_opens_le h) (by split <;> omega),
          le_trans (count_close_le h) (by split <;> omega),
          fun s₀ s₁ hs => ⟨(stepL_openOk hs).1, (stepL_openOk hs).2.2⟩,
          fun s₀ s₁ hs => (stepL_openFail hs).1,
          fun s₀ s₁ hs => (stepL_close hs).1⟩

theorem C7_witness :
    demoTrace.countP isOpenLabel ≤ 1 ∧ demoTrace.count Label.wClose ≤ 1 :=
  ⟨(C7_one_open_one_close cfg3 demoTrace demoEnd (by decide)).1,
   (C7_one_open_one_close cfg3 demoTrace demoEnd (by decide)).2.1⟩

/-- C1 counterexample: for the instantiation `CSVWriter<int, double,
std::string>` forced by the call `write(1, 2.0, "a")`, the type-directed
rendering uses `std::to_string(double)`, which prints `2.0` as `"2.000000"`.
A complete execution of the §8 scenario therefore yields the file content
`"t,x,y\n1,2.000000,a\n2,3.000000,b\n"`, not the claimed
`"t,x,y\n1,2,a\n2,3,b\n"`. -/
theorem C1_counterexample :
    run cfg3 demoTrace initState = some demoEnd ∧
    demoEnd.pushedBeforeStop = [buildString row1, buildString row2] ∧
    fileContent demoEnd = some "t,x,y\n1,2.000000,a\n2,3.000000,b\n" ∧
    cppToString (CsvField.fDouble 2) = "2.000000" ∧
    "t,x,y\n1,2.000000,a\n2,3.000000,b\n" ≠ "t,x,y\n1,2,a\n2,3,b\n" := by
  decide

/-- C1 (amended): for a writer with header `["t","x","y"]`, after any
complete execution in which exactly the two rows `(1, 2.0, "a")` and
`(2, 3.0, "b")` were written (all before the stop request) and the worker
finished its normal path, the file contains exactly the three
newline-terminated lines `t,x,y`, `1,2.000000,a` and `2,3.000000,b` (each
field rendered by the type-directed `toString`). -/
theorem C1_scenario_file_content (lbls : List Label) (s : LoggerState)
    (h : run cfg3 lbls initState = some s) (hdone : s.wpc = WorkerPC.done)
    (hpushed : s.pushed = [buildString row1, buildString row2])
    (hpre : s.pushedBeforeStop = s.pushed) :
    fileContent s = some "t,x,y\n1,2.000000,a\n2,3.000000,b\n" := by
  obtain ⟨h1, h2, h3, h4, h5, h6, h7, h8, h9, h10, h11, h12⟩ :=
    inv_run (inv_init cfg3) h
  obtain ⟨ch, hch⟩ := h11 hdone
  obtain ⟨t, hwt⟩ := h10 (Or.inr hdone)
  have hlen : s.pushed.length = s.written.length + s.q.length := by
    rw [h3]
    simp
  have hlen2 : s.written.length = s.pushed.length + t.length := by
    rw [hwt, ← hpre]
    simp
  have hq : s.q = [] := List.length_eq_zero.mp (by omega)
  have ht0 : t = [] := List.length_eq_zero.mp (by omega)
  have hwrit : s.written = s.pushed := by
    rw [hwt, ht0, List.append_nil, hpre]
  have hhd : s.headerDone = true :=
    h12 ⟨by simp [hdone], by simp [hdone], by simp [hdone]⟩
  have hcheq := h8 ch (by simp [fileChunks, hch])
  have hchv : ch = ["t,x,y\n", "1,2.000000,a\n", "2,3.000000,b\n"] := by
    rw [hcheq, hwrit, hpushed]
    simp only [hdrChunksOf, hhd]
    decide
  simp only [fileContent, fileChunks, hch, Option.map_some]
  rw [hchv]
  decide

theorem C1_witness :
    fileContent demoEnd = some "t,x,y\n1,2.000000,a\n2,3.000000,b\n" :=
  C1_scenario_file_content demoTrace demoEnd (by decide) (by decide)
    (by decide) (by decide)

/-- C5: `write` renders its fields to a single comma-joined string with no
trailing delimiter and no trailing newline (`buildString` coincides with
`String.intercalate ","` over the rendered fields), is always enabled, pushes
exactly that one string onto the queue (file, stop flag untouched), and
signals the worker: a worker blocked in `wait` is released to drain,
otherwise the notification changes nothing.  The newline is appended only by
the worker when it writes a dequeued line to the file. -/
theorem C5_write_builds_and_enqueues (fs : List CsvField) (hne : fs ≠ []) :
    buildString fs = String.intercalate "," (fs.map cppToString) ∧
    (∀ (c : Config) (s : LoggerState), ∃ s',
      stepL c (.write fs) s = some s' ∧
      s'.q = s.q ++ [buildString fs] ∧ s'.file = s.file ∧ s'.stop = s.stop ∧
      (s.wpc = .waiting → s'.wpc = .drain) ∧
      (s.wpc ≠ .waiting → s'.wpc = s.wpc)) ∧
    (∀ (c : Config) (s : LoggerState) (f : String) (rest ch : List String),
      s.wpc = .drain → s.q = f :: rest → s.file = .opened ch →
      ∃ s', stepL c .wPop s = some s' ∧
        s'.file = .opened (ch ++ [f ++ "\n"]) ∧ s'.q = rest) := by
  refine ⟨buildString_eq_intercalate hne, ?_, ?_⟩
  · intro c s
    refine ⟨_, rfl, rfl, rfl, rfl, ?_, ?_⟩
    · intro hw
      show wakeIfWaiting s.wpc = .drain
      rw [hw]
      rfl
    · intro hw
      show wakeIfWaiting s.wpc = s.wpc
      exact wake_ne hw
  · intro c s f rest ch hw hq hf
    refine ⟨{ s with
        q := rest
        written := s.written ++ [f]
        file := .opened (ch ++ [f ++ "\n"]) }, ?_, rfl, rfl⟩
    simp only [stepL, hw, hq, hf]

theorem C5_witness :
    buildString row1 = String.intercalate "," (row1.map cppToString) ∧
    buildString row1 = "1,2.000000,a" :=
  ⟨(C5_write_builds_and_enqueues row1 (by decide)).1, by decide⟩

/-- C8 is refuted by the code: `notify_log_.wait` is called with no
predicate, and a `notify_one` issued while the worker is not blocked in
`wait` is lost.  In the schedule `lostWakeTrace` the producer's `write`
(push plus notification) runs while the worker is still opening the file;
the worker then reads `stop_ == false` and blocks, reaching a state in
which it is suspended in `wait` while the queue holds one line, and in
which no worker step is enabled — it stays suspended until a further
`write` or the stop request notifies again. -/
theorem C8_suspended_with_nonempty_queue :
    run cfg3 lostWakeTrace initState = some lostWakeEnd ∧
    lostWakeEnd.wpc = WorkerPC.waiting ∧
    lostWakeEnd.q ≠ [] ∧
    stepL cfg3 .wOpenOk lostWakeEnd = none ∧
    stepL cfg3 .wOpenFail lostWakeEnd = none ∧
    stepL cfg3 .wHeader lostWakeEnd = none ∧
    stepL cfg3 .wCheckTrue lostWakeEnd = none ∧
    stepL cfg3 .wCheckFalse lostWakeEnd = none ∧
    stepL cfg3 .wEnterWait lostWakeEnd = none ∧
    stepL cfg3 .wPop lostWakeEnd = none ∧
    stepL cfg3 .wDrainEmpty lostWakeEnd = none ∧
    stepL cfg3 .wFinalPop lostWakeEnd = none ∧
    stepL cfg3 .wFinalEmpty lostWakeEnd = none ∧
    stepL cfg3 .wClose lostWakeEnd = none := by
  decide
